import Mathlib

/-!
# Destructor lowering (SILGenDestructor.cpp): a shallow embedding

This file embeds the decision logic and emitted control-flow shape of the
destructor-lowering code in `lib/SILGen/SILGenDestructor.cpp` and proves the
specification's claims about it.

The embedding abstracts the AST inputs (class declarations, stored
properties, destructor declarations) into Lean structures carrying exactly
the attributes the lowering code inspects, and models each emission function
as a Lean function producing a trace of abstract instructions.  IR-builder
calls that the claims do not mention (profiler increments, magic function
names, epilog bookkeeping, the unavailable-decl stub) are not modelled.

The recursive-chain destruction (`emitRecursiveChainDestruction`) is modelled
twice: once as the static CFG it emits (blocks and instructions, in source
order), and once as a fuel-based interpreter giving the runtime meaning of
that CFG over a heap of reference-counted nodes, so that the stack-depth and
exactly-once-destruction claims can be stated and proved.
-/

set_option autoImplicit false

/-- A stored property (`VarDecl`) as inspected by destructor lowering:
`id` stands for declaration identity (distinct decls have distinct ids),
`name` for `getBaseIdentifier()`, `isTrivial` for the type lowering's
`isTrivial()`, `isolationIsActorInstance` for
`getActorIsolation(vd) == ActorIsolation::ActorInstance`, and
`typeIsOptionalSelf` for "the interface type's optional object type is
canonically the declaring class's declared interface type". -/
structure VarDeclM where
  id : Nat
  name : String
  isTrivial : Bool
  isolationIsActorInstance : Bool
  typeIsOptionalSelf : Bool
deriving DecidableEq, Repr

/-- A class declaration as inspected by destructor lowering. -/
structure ClassDeclM where
  storedProperties : List VarDeclM
  hasSuperclass : Bool
  isNativeNSObjectSubclass : Bool
  isDistributedActor : Bool
  isRootDefaultActor : Bool
deriving DecidableEq, Repr

/-- A destructor declaration for a class, together with the facts the
destroying-form emitter computes about it: `hasExecutor` is whether
`emitExecutor` returned an executor for the destructor's isolation, and
`bodyFallsThrough` is whether `emitEpilogBB` produced a return value
(the user body reaches the implicit epilog). -/
structure DestructorDeclM where
  classDecl : ClassDeclM
  hasExecutor : Bool
  bodyFallsThrough : Bool
deriving DecidableEq, Repr

/-- Abstract instructions of the emitted destructor bodies.  Each
constructor corresponds to one emission step of `SILGenDestructor.cpp`
(several low-level builder calls may be folded into one step when the
claims do not distinguish them). -/
inductive Instr where
  /-- `emitPreconditionCheckExpectedExecutor` for a synchronous isolated
  destructor. -/
  | preconditionCheckExecutor
  /-- A `hop_to_executor`; never produced by this file's emitters, present
  so that its absence is a falsifiable statement. -/
  | hopToExecutor
  /-- `emitStmt(dd->getTypecheckedBody())`: the user-written deinit body. -/
  | userBody
  /-- `createUpcast` of self to the superclass type. -/
  | upcastToSuper
  /-- `emitSiblingMethodRef` to the superclass destroying destructor. -/
  | superDestroyerRef
  /-- `createApply` of the superclass destroying destructor. -/
  | applySuperDestroyer
  /-- `emitDistributedActorSystemResignIDCall`. -/
  | resignID
  /-- `destroyClassMember`: `ref_element_addr` + `begin_access [deinit]` +
  `destroy_addr` + `end_access` for one stored property. -/
  | destroyField (vd : VarDeclM)
  /-- `emitRecursiveChainDestruction` for the recursive link field. -/
  | recursiveChain (vd : VarDeclM)
  /-- `emitDestroyDefaultActor`: the `DestroyDefaultActor` builtin. -/
  | destroyDefaultActor
  /-- `emitSiblingMethodRef` to this class's destroying destructor
  (`SILDeclRef::Kind::Destroyer`, a non-virtual reference). -/
  | destroyerRef
  /-- `emitManagedBeginBorrow` of self. -/
  | beginBorrowSelf
  /-- `createApply` of the destroying destructor on the borrowed self. -/
  | applyDestroyer
  /-- End of the borrow scope around the destroying-destructor call. -/
  | endBorrowSelf
  /-- `createEndLifetime` on the original owned self. -/
  | endLifetimeSelf
  /-- `createUncheckedRefCast` of the returned handle back to the class
  type. -/
  | refCastToClass
  /-- `createDeallocRef`. -/
  | deallocRef
  /-- `createReturn` of the owned self handle (destroying form). -/
  | retSelfHandle
  /-- `createReturn` of the empty tuple. -/
  | retVoid
  /-- `emitSiblingMethodRef` to `SILDeclRef::Kind::IsolatedDeallocator`. -/
  | isolatedDeallocatorRef
  /-- `createExtractExecutor` on the destructor's executor. -/
  | extractExecutorInstr
  /-- `createInitExistentialRef`: cast self to `AnyObject`. -/
  | castSelfToAnyObject
  /-- `createConvertFunction` of the isolated deallocator. -/
  | convertDeallocatorFunction
  /-- `createApply` of `swift_task_deinitOnExecutor`. -/
  | scheduleIsolatedDealloc
deriving DecidableEq, Repr

/-- `SILGenFunction::destroyClassMember`: no code for a trivially-lowered
field, otherwise one address-based destroy of the field. -/
def destroyClassMember (vd : VarDeclM) : List Instr :=
  if vd.isTrivial then [] else [.destroyField vd]

/-- `llvm::SmallSetVector::insert`: append if not already present. -/
def insertLink (acc : List VarDeclM) (vd : VarDeclM) : List VarDeclM :=
  if vd ∈ acc then acc else acc ++ [vd]

/-- The collection loop of `findRecursiveLinks`: insert every stored
property whose type is "optional Self" into the result set. -/
def collectRecursiveLinks (acc : List VarDeclM) : List VarDeclM → List VarDeclM
  | [] => acc
  | vd :: rest =>
      collectRecursiveLinks
        (if vd.typeIsOptionalSelf then insertLink acc vd else acc) rest

/-- `findRecursiveLinks`: collect stored properties of type "optional
Self"; if more than one was found, clear the set (only linear recursion is
optimized). -/
def findRecursiveLinks (cd : ClassDeclM) : List VarDeclM :=
  let result := collectRecursiveLinks [] cd.storedProperties
  if result.length > 1 then [] else result

/-- The member loop of `emitClassMemberDestruction`: destroy every stored
property, skipping those in the recursive-link set. -/
def destroyMembersLoop (links : List VarDeclM) : List VarDeclM → List Instr
  | [] => []
  | vd :: rest =>
      (if vd ∈ links then [] else destroyClassMember vd)
        ++ destroyMembersLoop links rest

/-- `SILGenFunction::emitClassMemberDestruction`: destroy all non-link
members, then run the recursive-chain destruction on the link (if any),
then destroy the default-actor state for a root default actor. -/
def emitClassMemberDestruction (cd : ClassDeclM) : List Instr :=
  let links := findRecursiveLinks cd
  destroyMembersLoop links cd.storedProperties
    ++ (match links with
        | [] => []
        | l :: _ => [.recursiveChain l])
    ++ (if cd.isRootDefaultActor then [.destroyDefaultActor] else [])

/-- The portion of `SILGenFunction::emitDestroyingDestructor` emitted after
the user body's epilog: superclass destroying-destructor call (if a
superclass exists and the class is not a native `NSObject` subclass), the
distributed `resignID` call (if a distributed actor), member destruction,
and the return of the owned self handle. -/
def destroyingEpilog (cd : ClassDeclM) : List Instr :=
  (if cd.hasSuperclass && !cd.isNativeNSObjectSubclass
   then [.upcastToSuper, .superDestroyerRef, .applySuperDestroyer] else [])
    ++ (if cd.isDistributedActor then [.resignID] else [])
    ++ emitClassMemberDestruction cd
    ++ [.retSelfHandle]

/-- `SILGenFunction::emitDestroyingDestructor`: executor precondition check
(when an executor was computed for the destructor's isolation), then the
user body; if the body falls through to the epilog, the epilog sequence of
`destroyingEpilog`. -/
def emitDestroyingDestructor (dd : DestructorDeclM) : List Instr :=
  (if dd.hasExecutor then [.preconditionCheckExecutor] else [])
    ++ [.userBody]
    ++ (if dd.bodyFallsThrough then destroyingEpilog dd.classDecl else [])

/-- The remote-proxy loop of `emitDistributedRemoteActorDeinit`: skip
actor-instance-isolated properties, destroy those named `id` or
`actorSystem`. -/
def remoteFieldsLoop : List VarDeclM → List Instr
  | [] => []
  | vd :: rest =>
      (if vd.isolationIsActorInstance then []
       else if vd.name = "id" ∨ vd.name = "actorSystem" then
         destroyClassMember vd
       else []) ++ remoteFieldsLoop rest

/-- The remote basic block of `emitDistributedRemoteActorDeinit`: destroy
only the identity and actor-system fields, destroy the default-actor state
for a root default actor, then deallocate the object. -/
def remoteBranchTrace (cd : ClassDeclM) : List Instr :=
  remoteFieldsLoop cd.storedProperties
    ++ (if cd.isRootDefaultActor then [.destroyDefaultActor] else [])
    ++ [.deallocRef]

/-- The shape of a deallocating destructor body: either a straight-line
local deinit followed by a return, or an `is-remote` conditional branch
with a remote block and a local block converging on a finish block. -/
inductive DeallocTrace where
  | noBranch (tr : List Instr)
  | withRemoteBranch (remoteTr localTr finishTr : List Instr)
deriving DecidableEq, Repr

/-- Whether a deallocating destructor body contains the is-remote
conditional branch. -/
def DeallocTrace.hasRemoteBranch : DeallocTrace → Bool
  | .noBranch _ => false
  | .withRemoteBranch _ _ _ => true

/-- `SILGenFunction::emitDistributedRemoteActorDeinit`: when invoked as the
isolated deallocator or for a non-distributed class, emit the local deinit
unconditionally and return; otherwise branch on the runtime is-remote
predicate, with the remote block of `remoteBranchTrace` and the local block
running the given local deinit, both converging on a return. -/
def emitDistributedRemoteActorDeinit (cd : ClassDeclM) (isIsolated : Bool)
    (emitLocalDeinit : List Instr) : DeallocTrace :=
  if isIsolated || !cd.isDistributedActor then
    .noBranch (emitLocalDeinit ++ [.retVoid])
  else
    .withRemoteBranch (remoteBranchTrace cd) emitLocalDeinit [.retVoid]

/-- The local path of `SILGenFunction::emitDeallocatingClassDestructor`:
non-virtual reference to the destroying destructor, borrow of self, apply,
end of the borrow scope, `end_lifetime` on the original owned self,
unchecked ref-cast of the returned handle back to the class type, and
`dealloc_ref`. -/
def deallocatingLocalDeinit : List Instr :=
  [.destroyerRef, .beginBorrowSelf, .applyDestroyer, .endBorrowSelf,
   .endLifetimeSelf, .refCastToClass, .deallocRef]

/-- `SILGenFunction::emitDeallocatingClassDestructor`: the local path
wrapped in the remote-actor short-circuit. -/
def emitDeallocatingClassDestructor (cd : ClassDeclM) (isIsolated : Bool) :
    DeallocTrace :=
  emitDistributedRemoteActorDeinit cd isIsolated deallocatingLocalDeinit

/-- The local path of `SILGenFunction::emitIsolatingDestructor`: reference
the isolated deallocator, extract the executor, type-erase self, convert
the deallocator's function type, and submit to
`swift_task_deinitOnExecutor`. -/
def isolatingLocalDeinit : List Instr :=
  [.isolatedDeallocatorRef, .extractExecutorInstr, .castSelfToAnyObject,
   .convertDeallocatorFunction, .scheduleIsolatedDealloc]

/-- `SILGenFunction::emitIsolatingDestructor`: the scheduling path wrapped
in the remote-actor short-circuit (invoked with `isIsolated = false`). -/
def emitIsolatingDestructor (cd : ClassDeclM) : DeallocTrace :=
  emitDistributedRemoteActorDeinit cd false isolatingLocalDeinit

/-! ## The recursive-chain destruction CFG (static shape)

`SILGenFunction::emitRecursiveChainDestruction` emits seven basic blocks.
We transcribe them, instruction by instruction, in source order. -/

/-- The access kinds used by the chain-destruction emission. -/
inductive AccessKind where
  | modify
  | read
deriving DecidableEq, Repr

/-- Load ownership qualifiers used by the chain-destruction emission. -/
inductive LoadQual where
  | take
  | copy
deriving DecidableEq, Repr

/-- Store ownership qualifiers used by the chain-destruction emission. -/
inductive StoreQual where
  | initQual
  | assignQual
deriving DecidableEq, Repr

/-- The basic blocks created by `emitRecursiveChainDestruction`. -/
inductive ChainBlock where
  | entry
  | loopBB
  | someBB
  | uniqueBB
  | notUniqueBB
  | noneBB
  | cleanBB
deriving DecidableEq, Repr

/-- Instructions of the chain-destruction CFG. -/
inductive CInstr where
  /-- `createOptionalNone`. -/
  | optionalNoneLit
  /-- `ref_element_addr` of the link field (of self in the entry block, of
  the unwrapped link in the unique block). -/
  | refElementAddrLink
  /-- `alloc_stack` for the working slot `iter`. -/
  | allocStackIter
  /-- `begin_access` on the link field's address. -/
  | beginAccessField (k : AccessKind)
  /-- `load` from the link field's address. -/
  | loadField (q : LoadQual)
  /-- `store` of the `none` optional into the link field (`[init]`). -/
  | storeFieldNone
  /-- `end_access` on the link field's address. -/
  | endAccessField
  /-- `store` into the working slot `iter`. -/
  | storeIter (q : StoreQual)
  /-- `switch_enum` on the working slot's optional value. -/
  | switchEnumIter (someTarget noneTarget : ChainBlock)
  /-- `is_unique` applied to the working slot. -/
  | isUniqueIter
  /-- `cond_br` on the uniqueness bit. -/
  | condBranchUnique (uniqueTarget notUniqueTarget : ChainBlock)
  /-- `load_borrow` of the working slot. -/
  | loadBorrowIter
  /-- `unchecked_enum_data` extracting the `some` payload. -/
  | uncheckedEnumDataSome
  /-- `end_borrow` of the working-slot borrow. -/
  | endBorrowIter
  /-- `destroy_addr` of the working slot. -/
  | destroyAddrIter
  /-- `dealloc_stack` of the working slot. -/
  | deallocStackIter
  /-- Unconditional branch. -/
  | br (target : ChainBlock)
deriving DecidableEq, Repr

/-- `SILGenFunction::emitRecursiveChainDestruction`, block by block, in the
order the builder calls appear in the source. -/
def emitRecursiveChainDestruction : ChainBlock → List CInstr
  | .entry =>
      [.optionalNoneLit, .refElementAddrLink, .allocStackIter,
       .beginAccessField .modify, .loadField .take, .storeFieldNone,
       .endAccessField, .storeIter .initQual, .br .loopBB]
  | .loopBB => [.switchEnumIter .someBB .noneBB]
  | .someBB => [.isUniqueIter, .condBranchUnique .uniqueBB .notUniqueBB]
  | .uniqueBB =>
      [.loadBorrowIter, .uncheckedEnumDataSome, .refElementAddrLink,
       .beginAccessField .read, .loadField .copy, .endAccessField,
       .endBorrowIter, .storeIter .assignQual, .br .loopBB]
  | .notUniqueBB => [.br .cleanBB]
  | .noneBB => [.br .cleanBB]
  | .cleanBB => [.destroyAddrIter, .deallocStackIter]

/-! ## The recursive-chain destruction at runtime

The operational meaning of the emitted code, over a heap of
reference-counted nodes of a class whose single recursive link field holds
an optional reference to another node.  A release that drops a reference
count to zero runs that node's destroying destructor, which (by
`emitClassMemberDestruction` for such a class) destroys the node's other
members and then runs the chain-destruction loop on the node — this
reentrancy is exactly what the interpreter models, with `maxDepth`
recording the deepest nested destructor frame ever entered. -/

/-- Runtime state: the link field and reference count of every node
(identified by a `Nat`), the list of nodes whose destroying destructor has
run (in order), and the deepest nested destructor frame entered so far. -/
structure RState where
  link : Nat → Option Nat
  rc : Nat → Nat
  destroyed : List Nat
  maxDepth : Nat

/-- Overwrite one node's reference count. -/
def setRC (s : RState) (n v : Nat) : RState :=
  { s with rc := fun k => if k = n then v else s.rc k }

/-- Overwrite one node's link field. -/
def setLink (s : RState) (n : Nat) (v : Option Nat) : RState :=
  { s with link := fun k => if k = n then v else s.link k }

/-- Record that node `n`'s destructor ran, in a frame at depth `d`. -/
def pushDestroyed (s : RState) (n : Nat) (d : Nat) : RState :=
  { s with destroyed := s.destroyed ++ [n], maxDepth := max s.maxDepth d }

/-- Retain an optional reference (`load [copy]`). -/
def retainVal (s : RState) (v : Option Nat) : RState :=
  match v with
  | none => s
  | some n => setRC s n (s.rc n + 1)

/-- The three activities of the emitted code's runtime execution:
releasing an optional reference, running a node's destroying destructor,
and one round of the chain-destruction loop with the working slot holding
`iter`. -/
inductive ChainCmd where
  | releaseCmd (v : Option Nat)
  | deinitCmd (n : Nat)
  | loopCmd (iter : Option Nat)
deriving DecidableEq, Repr

/-- Fuel-based interpreter for the emitted chain-destruction code.

* `releaseCmd`: a strong release.  Dropping the count from 1 to 0 enters
  the node's destroying destructor one frame deeper.
* `deinitCmd n`: node `n`'s destroying destructor: record the member
  destruction, then the entry block of the loop — take `n`'s link field
  into the working slot and overwrite the field with `none`.
* `loopCmd`: the `loopBB`/`someBB` dispatch: on `none`, fall to the clean
  block (destroy the slot's `none`, a no-op release); on `some m`, test
  uniqueness.  If unique (`is_unique`): `load [copy]` `m`'s own link
  (retaining it), `store [assign]` it into the slot (releasing `m`, which
  runs `m`'s destructor), and loop.  If not unique: the clean block
  releases the slot's single reference and exits. -/
def chainRun (fuel : Nat) (depth : Nat) (c : ChainCmd) (s : RState) :
    Option RState :=
  match fuel with
  | 0 => none
  | fuel + 1 =>
    match c with
    | .releaseCmd none => some s
    | .releaseCmd (some n) =>
      match s.rc n with
      | 0 => none
      | 1 => chainRun fuel (depth + 1) (.deinitCmd n) (setRC s n 0)
      | r + 2 => some (setRC s n (r + 1))
    | .deinitCmd n =>
      chainRun fuel depth (.loopCmd (s.link n))
        (setLink (pushDestroyed s n depth) n none)
    | .loopCmd none => chainRun fuel depth (.releaseCmd none) s
    | .loopCmd (some m) =>
      if s.rc m = 1 then
        match chainRun fuel depth (.releaseCmd (some m))
            (retainVal s (s.link m)) with
        | none => none
        | some s2 => chainRun fuel depth (.loopCmd (s.link m)) s2
      else
        chainRun fuel depth (.releaseCmd (some m)) s

/-- The successor of `n` along the chain `c` (the value of `n`'s link
field in a heap laid out as the chain `c`). -/
def chainNext : List Nat → Nat → Option Nat
  | [], _ => none
  | [_], _ => none
  | a :: b :: rest, n => if n = a then some b else chainNext (b :: rest) n

/-- The heap of a uniquely-owned chain `c`: each node's link field points
to its successor in `c`, each node's reference count is 1 (its single
owner being its predecessor's link field, or the external reference for
the head), nothing destroyed yet. -/
def mkChainState (c : List Nat) : RState :=
  { link := fun n => chainNext c n
  , rc := fun n => if n ∈ c then 1 else 0
  , destroyed := []
  , maxDepth := 0 }

/-- The heap `s` is laid out as the chain `c`: each node's link field
holds its successor, the last node's link field holds `none`. -/
def chainLinks : List Nat → RState → Prop
  | [], _ => True
  | [a], s => s.link a = none
  | a :: b :: rest, s => s.link a = some b ∧ chainLinks (b :: rest) s

/-! ## Move-only (noncopyable value type) member destruction -/

/-- A tagged-union case (`EnumElementDecl`): declaration identity and
whether the case carries associated values. -/
structure EnumEltM where
  id : Nat
  hasAssociatedValues : Bool
deriving DecidableEq, Repr

/-- Instructions of the move-only member-destruction emission. -/
inductive MInstr where
  /-- `createDropDeinit`: invalidate the user-defined deinit. -/
  | dropDeinit
  /-- `createUncheckedTakeEnumDataAddr` for one case's payload. -/
  | takeEnumDataAddr (e : EnumEltM)
  /-- `createDestroyAddr` of one case's payload. -/
  | destroyPayloadAddr (e : EnumEltM)
  /-- `createBranch` to the common continuation block. -/
  | brContinuation
deriving DecidableEq, Repr

/-- The per-case block built by the enum arm of
`emitMoveOnlyMemberDestruction`: take and destroy the payload if the case
has associated values, then branch to the common continuation block. -/
def enumCaseBlock (e : EnumEltM) : List MInstr :=
  (if e.hasAssociatedValues then [.takeEnumDataAddr e, .destroyPayloadAddr e]
   else []) ++ [.brContinuation]

/-- The nominal type being destroyed by the move-only path. -/
inductive NominalM where
  | structDecl (fields : List VarDeclM)
  | enumDecl (elts : List EnumEltM)
deriving DecidableEq, Repr

/-- The shapes `emitMoveOnlyMemberDestruction` can emit after the
`drop_deinit`. -/
inductive MODestruction where
  /-- An object (in-register) value: a single `destroy_value`. -/
  | objectDestroy
  /-- A struct in memory: address-based destroys of the non-trivial
  fields, in declaration order. -/
  | structFields (destroyed : List VarDeclM)
  /-- An enum in memory: a `switch_enum_addr` dispatching to one block per
  case. -/
  | enumSwitch (cases : List (EnumEltM × List MInstr))
deriving DecidableEq, Repr

/-- The struct arm's field loop: skip trivially-lowered fields. -/
def nonTrivialFields : List VarDeclM → List VarDeclM
  | [] => []
  | vd :: rest => (if vd.isTrivial then [] else [vd]) ++ nonTrivialFields rest

/-- `SILGenFunction::emitMoveOnlyMemberDestruction`.  The first component
records whether a fresh `drop_deinit` was emitted (it is, unless the value
already is a `DropDeinitInst`); the second is the destruction shape:
`destroy_value` for an object value, per-field destroys for a struct in
memory, a tag switch with one block per case for an enum in memory. -/
def emitMoveOnlyMemberDestruction (nom : NominalM)
    (isObject alreadyDropped : Bool) : Bool × MODestruction :=
  (!alreadyDropped,
   if isObject then .objectDestroy
   else
     match nom with
     | .structDecl fields => .structFields (nonTrivialFields fields)
     | .enumDecl elts => .enumSwitch (elts.map fun e => (e, enumCaseBlock e)))

/-- The runtime meaning of `switch_enum_addr`: dispatch to the block of
the case matching the runtime tag. -/
def runSwitchEnumAddr (cases : List (EnumEltM × List MInstr))
    (tag : EnumEltM) : List MInstr :=
  match cases.find? (fun c => decide (c.1 = tag)) with
  | some c => c.2
  | none => []

/-! ## Concrete inputs used by counterexamples and witnesses -/

/-- A distributed actor class with a superclass and no stored properties
(as far as this emitter is concerned). -/
def cdSuperDist : ClassDeclM :=
  { storedProperties := []
  , hasSuperclass := true
  , isNativeNSObjectSubclass := false
  , isDistributedActor := true
  , isRootDefaultActor := false }

/-- The destructor of `cdSuperDist`, with no executor and a body that
falls through. -/
def ddSuperDist : DestructorDeclM :=
  { classDecl := cdSuperDist, hasExecutor := false, bodyFallsThrough := true }

/-- A node class: one trivial payload field and one recursive link field
of type "optional Self". -/
def nodeLinkField : VarDeclM :=
  { id := 1, name := "next", isTrivial := false
  , isolationIsActorInstance := false, typeIsOptionalSelf := true }

/-- The non-link payload field of `nodeClass`. -/
def nodeElementField : VarDeclM :=
  { id := 0, name := "element", isTrivial := true
  , isolationIsActorInstance := false, typeIsOptionalSelf := false }

/-- A linked-list node class with exactly one stored field of type
"optional Self". -/
def nodeClass : ClassDeclM :=
  { storedProperties := [nodeElementField, nodeLinkField]
  , hasSuperclass := false
  , isNativeNSObjectSubclass := false
  , isDistributedActor := false
  , isRootDefaultActor := false }

/-- A class with two stored fields of type "optional Self". -/
def twoLinksClass : ClassDeclM :=
  { storedProperties :=
      [ { id := 0, name := "left", isTrivial := false
        , isolationIsActorInstance := false, typeIsOptionalSelf := true }
      , { id := 1, name := "right", isTrivial := false
        , isolationIsActorInstance := false, typeIsOptionalSelf := true } ]
  , hasSuperclass := false
  , isNativeNSObjectSubclass := false
  , isDistributedActor := false
  , isRootDefaultActor := false }

/-- A distributed actor class with `id` and `actorSystem` fields, an
actor-instance-isolated field that happens to be named `id`, and two
ordinary isolated stored fields. -/
def distActorClass : ClassDeclM :=
  { storedProperties :=
      [ { id := 0, name := "id", isTrivial := false
        , isolationIsActorInstance := false, typeIsOptionalSelf := false }
      , { id := 1, name := "actorSystem", isTrivial := false
        , isolationIsActorInstance := false, typeIsOptionalSelf := false }
      , { id := 2, name := "id", isTrivial := false
        , isolationIsActorInstance := true, typeIsOptionalSelf := false }
      , { id := 3, name := "balance", isTrivial := false
        , isolationIsActorInstance := true, typeIsOptionalSelf := false }
      , { id := 4, name := "log", isTrivial := false
        , isolationIsActorInstance := true, typeIsOptionalSelf := false } ]
  , hasSuperclass := false
  , isNativeNSObjectSubclass := false
  , isDistributedActor := true
  , isRootDefaultActor := true }

/-- The actor-instance-isolated field of `distActorClass` named `id`. -/
def isolatedIdField : VarDeclM :=
  { id := 2, name := "id", isTrivial := false
  , isolationIsActorInstance := true, typeIsOptionalSelf := false }

/-- The destructor of `nodeClass`, isolated to an executor, with a body
that falls through. -/
def ddWithExecutor : DestructorDeclM :=
  { classDecl := nodeClass, hasExecutor := true, bodyFallsThrough := true }

/-- A two-case tagged union: one case with a payload, one without. -/
def eltPayload : EnumEltM := { id := 0, hasAssociatedValues := true }

/-- The payload-free case of the example tagged union. -/
def eltEmpty : EnumEltM := { id := 1, hasAssociatedValues := false }

/-- A state with a single node `3` referenced by two owners. -/
def sharedNodeState : RState :=
  { link := fun _ => none
  , rc := fun n => if n = 3 then 2 else 0
  , destroyed := []
  , maxDepth := 0 }

/-! ## Helper lemmas: state components -/

@[simp] lemma setRC_rc (s : RState) (n v k : Nat) :
    (setRC s n v).rc k = if k = n then v else s.rc k := rfl

@[simp] lemma setRC_link (s : RState) (n v : Nat) :
    (setRC s n v).link = s.link := rfl

@[simp] lemma setRC_destroyed (s : RState) (n v : Nat) :
    (setRC s n v).destroyed = s.destroyed := rfl

@[simp] lemma setRC_maxDepth (s : RState) (n v : Nat) :
    (setRC s n v).maxDepth = s.maxDepth := rfl

@[simp] lemma setLink_link (s : RState) (n : Nat) (v : Option Nat) (k : Nat) :
    (setLink s n v).link k = if k = n then v else s.link k := rfl

@[simp] lemma setLink_rc (s : RState) (n : Nat) (v : Option Nat) :
    (setLink s n v).rc = s.rc := rfl

@[simp] lemma setLink_destroyed (s : RState) (n : Nat) (v : Option Nat) :
    (setLink s n v).destroyed = s.destroyed := rfl

@[simp] lemma setLink_maxDepth (s : RState) (n : Nat) (v : Option Nat) :
    (setLink s n v).maxDepth = s.maxDepth := rfl

@[simp] lemma pushDestroyed_rc (s : RState) (n d : Nat) :
    (pushDestroyed s n d).rc = s.rc := rfl

@[simp] lemma pushDestroyed_link (s : RState) (n d : Nat) :
    (pushDestroyed s n d).link = s.link := rfl

@[simp] lemma pushDestroyed_destroyed (s : RState) (n d : Nat) :
    (pushDestroyed s n d).destroyed = s.destroyed ++ [n] := rfl

@[simp] lemma pushDestroyed_maxDepth (s : RState) (n d : Nat) :
    (pushDestroyed s n d).maxDepth = max s.maxDepth d := rfl

/-! ## Helper lemmas: interpreter steps -/

lemma chainRun_release_none (f d : Nat) (s : RState) :
    chainRun (f + 1) d (.releaseCmd none) s = some s := rfl

lemma chainRun_release_unique (f d n : Nat) (s : RState) (h : s.rc n = 1) :
    chainRun (f + 1) d (.releaseCmd (some n)) s
      = chainRun f (d + 1) (.deinitCmd n) (setRC s n 0) := by
  simp only [chainRun, h]

lemma chainRun_release_shared (f d n : Nat) (s : RState) (h : 2 ≤ s.rc n) :
    chainRun (f + 1) d (.releaseCmd (some n)) s
      = some (setRC s n (s.rc n - 1)) := by
  obtain ⟨r, hr⟩ : ∃ r, s.rc n = r + 2 := ⟨s.rc n - 2, by omega⟩
  have h1 : r + 2 - 1 = r + 1 := by omega
  simp only [chainRun, hr, h1]

lemma chainRun_deinit (f d n : Nat) (s : RState) :
    chainRun (f + 1) d (.deinitCmd n) s
      = chainRun f d (.loopCmd (s.link n))
          (setLink (pushDestroyed s n d) n none) := rfl

lemma chainRun_loop_none (f d : Nat) (s : RState) :
    chainRun (f + 1) d (.loopCmd none) s
      = chainRun f d (.releaseCmd none) s := rfl

lemma chainRun_loop_unique (f d m : Nat) (s : RState) (h : s.rc m = 1) :
    chainRun (f + 1) d (.loopCmd (some m)) s
      = match chainRun f d (.releaseCmd (some m)) (retainVal s (s.link m)) with
        | none => none
        | some s2 => chainRun f d (.loopCmd (s.link m)) s2 := by
  simp only [chainRun, h, if_pos]

lemma chainRun_loop_shared (f d m : Nat) (s : RState) (h : s.rc m ≠ 1) :
    chainRun (f + 1) d (.loopCmd (some m)) s
      = chainRun f d (.releaseCmd (some m)) s := by
  simp only [chainRun, h, if_neg, if_false]

/-! ## Helper lemmas: membership in emitted traces -/

lemma mem_destroyClassMember {vd : VarDeclM} {i : Instr} :
    i ∈ destroyClassMember vd ↔
      vd.isTrivial = false ∧ i = .destroyField vd := by
  cases hb : vd.isTrivial with
  | true => simp [destroyClassMember, hb]
  | false => simp [destroyClassMember, hb]

lemma mem_destroyMembersLoop (links : List VarDeclM) (props : List VarDeclM)
    (i : Instr) :
    i ∈ destroyMembersLoop links props ↔
      ∃ vd, vd ∈ props ∧ vd ∉ links ∧ vd.isTrivial = false
        ∧ i = .destroyField vd := by
  induction props with
  | nil => simp [destroyMembersLoop]
  | cons vd rest ih =>
      by_cases hl : vd ∈ links
      · simp only [destroyMembersLoop, if_pos hl, List.nil_append, ih]
        constructor
        · rintro ⟨vd', h1, h2, h3, h4⟩
          exact ⟨vd', List.mem_cons_of_mem _ h1, h2, h3, h4⟩
        · rintro ⟨vd', h1, h2, h3, h4⟩
          rcases List.mem_cons.mp h1 with rfl | h1'
          · exact absurd hl h2
          · exact ⟨vd', h1', h2, h3, h4⟩
      · simp only [destroyMembersLoop, if_neg hl, List.mem_append, ih,
          mem_destroyClassMember]
        constructor
        · rintro (⟨h3, h4⟩ | ⟨vd', h1, h2, h3, h4⟩)
          · exact ⟨vd, List.mem_cons_self _ _, hl, h3, h4⟩
          · exact ⟨vd', List.mem_cons_of_mem _ h1, h2, h3, h4⟩
        · rintro ⟨vd', h1, h2, h3, h4⟩
          rcases List.mem_cons.mp h1 with rfl | h1'
          · exact Or.inl ⟨h3, h4⟩
          · exact Or.inr ⟨vd', h1', h2, h3, h4⟩

lemma mem_remoteFieldsLoop (props : List VarDeclM) (i : Instr) :
    i ∈ remoteFieldsLoop props ↔
      ∃ vd, vd ∈ props ∧ vd.isolationIsActorInstance = false
        ∧ (vd.name = "id" ∨ vd.name = "actorSystem")
        ∧ vd.isTrivial = false ∧ i = .destroyField vd := by
  induction props with
  | nil => simp [remoteFieldsLoop]
  | cons vd rest ih =>
      cases hiso : vd.isolationIsActorInstance with
      | true =>
          simp only [remoteFieldsLoop, hiso, if_true, List.nil_append, ih]
          constructor
          · rintro ⟨vd', h1, h2, h3, h4, h5⟩
            exact ⟨vd', List.mem_cons_of_mem _ h1, h2, h3, h4, h5⟩
          · rintro ⟨vd', h1, h2, h3, h4, h5⟩
            rcases List.mem_cons.mp h1 with rfl | h1'
            · rw [hiso] at h2; exact absurd h2 (by simp)
            · exact ⟨vd', h1', h2, h3, h4, h5⟩
      | false =>
        by_cases hname : vd.name = "id" ∨ vd.name = "actorSystem"
        · simp only [remoteFieldsLoop, hiso, Bool.false_eq_true, if_false,
            if_pos hname, List.mem_append, ih, mem_destroyClassMember]
          constructor
          · rintro (⟨h4, h5⟩ | ⟨vd', h1, h2, h3, h4, h5⟩)
            · exact ⟨vd, List.mem_cons_self _ _, hiso, hname, h4, h5⟩
            · exact ⟨vd', List.mem_cons_of_mem _ h1, h2, h3, h4, h5⟩
          · rintro ⟨vd', h1, h2, h3, h4, h5⟩
            rcases List.mem_cons.mp h1 with rfl | h1'
            · exact Or.inl ⟨h4, h5⟩
            · exact Or.inr ⟨vd', h1', h2, h3, h4, h5⟩
        · simp only [remoteFieldsLoop, hiso, Bool.false_eq_true, if_false,
            if_neg hname, List.nil_append, ih]
          constructor
          · rintro ⟨vd', h1, h2, h3, h4, h5⟩
            exact ⟨vd', List.mem_cons_of_mem _ h1, h2, h3, h4, h5⟩
          · rintro ⟨vd', h1, h2, h3, h4, h5⟩
            rcases List.mem_cons.mp h1 with rfl | h1'
            · exact absurd h3 hname
            · exact ⟨vd', h1', h2, h3, h4, h5⟩

lemma mem_emitClassMemberDestruction_shape (cd : ClassDeclM) (i : Instr)
    (h : i ∈ emitClassMemberDestruction cd) :
    (∃ vd, i = .destroyField vd) ∨ (∃ vd, i = .recursiveChain vd)
      ∨ i = .destroyDefaultActor := by
  unfold emitClassMemberDestruction at h
  rcases List.mem_append.mp h with h' | h'
  · rcases List.mem_append.mp h' with h'' | h''
    · obtain ⟨vd, -, -, -, rfl⟩ :=
        (mem_destroyMembersLoop _ _ _).mp h''
      exact Or.inl ⟨vd, rfl⟩
    · cases hl : findRecursiveLinks cd with
      | nil => rw [hl] at h''; simp at h''
      | cons l ls =>
          rw [hl] at h''
          rcases List.mem_singleton.mp h'' with rfl
          exact Or.inr (Or.inl ⟨l, rfl⟩)
  · cases hr : cd.isRootDefaultActor with
    | true => rw [hr] at h'; simp at h'; exact Or.inr (Or.inr h')
    | false => rw [hr] at h'; simp at h'

/-! ## Helper lemmas: the recursive-link set -/

lemma mem_insertLink {acc : List VarDeclM} {vd x : VarDeclM} :
    x ∈ insertLink acc vd ↔ x ∈ acc ∨ x = vd := by
  by_cases h : vd ∈ acc
  · simp only [insertLink, if_pos h]
    constructor
    · exact fun hx => Or.inl hx
    · rintro (hx | rfl)
      · exact hx
      · exact h
  · simp [insertLink, if_neg h]

lemma nodup_insertLink {acc : List VarDeclM} {vd : VarDeclM}
    (h : acc.Nodup) : (insertLink acc vd).Nodup := by
  by_cases hm : vd ∈ acc
  · simpa [insertLink, if_pos hm] using h
  · simp only [insertLink, if_neg hm]
    simp [List.nodup_append, h, hm]

lemma mem_collectRecursiveLinks (props : List VarDeclM) :
    ∀ (acc : List VarDeclM) (x : VarDeclM),
      x ∈ collectRecursiveLinks acc props ↔
        x ∈ acc ∨ (x ∈ props ∧ x.typeIsOptionalSelf = true) := by
  induction props with
  | nil => intro acc x; simp [collectRecursiveLinks]
  | cons vd rest ih =>
      intro acc x
      rw [collectRecursiveLinks, ih]
      by_cases h : vd.typeIsOptionalSelf = true
      · rw [if_pos h, mem_insertLink]
        constructor
        · rintro ((hx | rfl) | ⟨hx, hopt⟩)
          · exact Or.inl hx
          · exact Or.inr ⟨List.mem_cons_self _ _, h⟩
          · exact Or.inr ⟨List.mem_cons_of_mem _ hx, hopt⟩
        · rintro (hx | ⟨hx, hopt⟩)
          · exact Or.inl (Or.inl hx)
          · rcases List.mem_cons.mp hx with rfl | hx'
            · exact Or.inl (Or.inr rfl)
            · exact Or.inr ⟨hx', hopt⟩
      · rw [if_neg h]
        constructor
        · rintro (hx | ⟨hx, hopt⟩)
          · exact Or.inl hx
          · exact Or.inr ⟨List.mem_cons_of_mem _ hx, hopt⟩
        · rintro (hx | ⟨hx, hopt⟩)
          · exact Or.inl hx
          · rcases List.mem_cons.mp hx with rfl | hx'
            · exact absurd hopt h
            · exact Or.inr ⟨hx', hopt⟩

lemma nodup_collectRecursiveLinks (props : List VarDeclM) :
    ∀ (acc : List VarDeclM), acc.Nodup →
      (collectRecursiveLinks acc props).Nodup := by
  induction props with
  | nil => intro acc h; exact h
  | cons vd rest ih =>
      intro acc h
      rw [collectRecursiveLinks]
      by_cases hv : vd.typeIsOptionalSelf = true
      · rw [if_pos hv]; exact ih _ (nodup_insertLink h)
      · rw [if_neg hv]; exact ih _ h

lemma eq_singleton_of_nodup_mem_iff {l : List VarDeclM} {vd : VarDeclM}
    (hnd : l.Nodup) (h : ∀ x, x ∈ l ↔ x = vd) : l = [vd] := by
  cases l with
  | nil => exact absurd ((h vd).mpr rfl) (List.not_mem_nil vd)
  | cons a t =>
      have ha : a = vd := (h a).mp (List.mem_cons_self _ _)
      subst ha
      cases t with
      | nil => rfl
      | cons b t' =>
          have hb : b = a := (h b).mp (List.mem_cons_of_mem _
            (List.mem_cons_self _ _))
          subst hb
          exact absurd (List.mem_cons_self b t')
            ((List.nodup_cons.mp hnd).1)

lemma two_le_length_of_two_mem {l : List VarDeclM} {a b : VarDeclM}
    (ha : a ∈ l) (hb : b ∈ l) (hab : a ≠ b) : 2 ≤ l.length := by
  cases l with
  | nil => exact absurd ha (List.not_mem_nil a)
  | cons x t =>
      cases t with
      | nil =>
          rcases List.mem_singleton.mp ha with rfl
          rcases List.mem_singleton.mp hb with rfl
          exact absurd rfl hab
      | cons y t' => simp only [List.length_cons]; omega

/-! ## Helper lemmas: chain layout -/

lemma chainLinks_head (a : Nat) (rest : List Nat) (s : RState)
    (h : chainLinks (a :: rest) s) :
    s.link a = rest.head? ∧ chainLinks rest s := by
  cases rest with
  | nil => exact ⟨h, trivial⟩
  | cons b r => exact ⟨h.1, h.2⟩

lemma chainLinks_congr : ∀ (c : List Nat) (s s' : RState),
    (∀ n ∈ c, s'.link n = s.link n) → chainLinks c s → chainLinks c s'
  | [], _, _, _, _ => trivial
  | [a], _, _, hl, h => by
      show _ = none
      rw [hl a (List.mem_cons_self _ _)]; exact h
  | a :: b :: r, s, s', hl, h => by
      refine ⟨?_, chainLinks_congr (b :: r) s s'
        (fun n hn => hl n (List.mem_cons_of_mem _ hn)) h.2⟩
      rw [hl a (List.mem_cons_self _ _)]; exact h.1

lemma chainNext_cons_ne (a : Nat) (c : List Nat) (n : Nat) (h : n ≠ a) :
    chainNext (a :: c) n = chainNext c n := by
  cases c with
  | nil => rfl
  | cons b r => simp [chainNext, if_neg h]

lemma chainNext_head (a : Nat) (rest : List Nat) :
    chainNext (a :: rest) a = rest.head? := by
  cases rest with
  | nil => rfl
  | cons b r => simp [chainNext]

lemma chainLinks_of_fn : ∀ (c : List Nat) (s : RState), c.Nodup →
    (∀ n ∈ c, s.link n = chainNext c n) → chainLinks c s
  | [], _, _, _ => trivial
  | [a], s, _, h => by
      show s.link a = none
      rw [h a (List.mem_cons_self _ _)]
      rfl
  | a :: b :: r, s, hnd, h => by
      have ha : a ∉ b :: r := (List.nodup_cons.mp hnd).1
      refine ⟨?_, ?_⟩
      · rw [h a (List.mem_cons_self _ _)]
        simp [chainNext]
      · refine chainLinks_of_fn (b :: r) s (List.nodup_cons.mp hnd).2 ?_
        intro n hn
        have hne : n ≠ a := fun he => ha (he ▸ hn)
        rw [h n (List.mem_cons_of_mem _ hn),
          chainNext_cons_ne a (b :: r) n hne]

lemma chainLinks_mkChainState (c : List Nat) (h : c.Nodup) :
    chainLinks c (mkChainState c) :=
  chainLinks_of_fn c _ h (fun _ _ => rfl)

/-! ## The chain-destruction loop: main specification

Running the loop on a uniquely-owned chain destroys every chain node
exactly once, in order, while every nested destructor frame stays at depth
`depth + 1` (the loop releases each node itself; the released node's own
destructor immediately sees a non-unique successor and exits). -/

lemma chainLoop_spec (c : List Nat) : ∀ (fuel depth : Nat) (s : RState),
    c.Nodup → (∀ n ∈ c, s.rc n = 1) → chainLinks c s →
    c.length + 4 ≤ fuel →
    ∃ s', chainRun fuel depth (.loopCmd c.head?) s = some s'
      ∧ s'.destroyed = s.destroyed ++ c
      ∧ s'.maxDepth ≤ max s.maxDepth (depth + 1)
      ∧ (∀ n, n ∉ c → s'.rc n = s.rc n)
      ∧ (∀ n, n ∉ c → s'.link n = s.link n) := by
  induction c with
  | nil =>
      intro fuel depth s _ _ _ hf
      obtain ⟨f1, rfl⟩ : ∃ f1, fuel = f1 + 2 := ⟨fuel - 2, by omega⟩
      refine ⟨s, ?_, by simp, le_max_left _ _, fun n _ => rfl, fun n _ => rfl⟩
      show chainRun (f1 + 2) depth (.loopCmd none) s = some s
      rw [show f1 + 2 = (f1 + 1) + 1 from rfl, chainRun_loop_none,
        chainRun_release_none]
  | cons m rest ih =>
      intro fuel depth s hnd hrc hlinks hf
      have hmrest : m ∉ rest := (List.nodup_cons.mp hnd).1
      have hndrest : rest.Nodup := (List.nodup_cons.mp hnd).2
      obtain ⟨hlinkm, hlinksrest⟩ := chainLinks_head m rest s hlinks
      have hrcm : s.rc m = 1 := hrc m (List.mem_cons_self _ _)
      rw [List.length_cons] at hf
      obtain ⟨X, rfl⟩ : ∃ X, fuel = X + 1 := ⟨fuel - 1, by omega⟩
      have hX : rest.length + 4 ≤ X := by omega
      rw [List.head?_cons, chainRun_loop_unique X depth m s hrcm]
      cases rest with
      | nil =>
          have hlm : s.link m = none := hlinkm
          rw [hlm]
          obtain ⟨Y, rfl⟩ : ∃ Y, X = Y + 4 := ⟨X - 4, by omega⟩
          have hrel : chainRun (Y + 4) depth (.releaseCmd (some m))
              (retainVal s none) = some
              (setLink (pushDestroyed (setRC s m 0) m (depth + 1)) m none) := by
            rw [show retainVal s none = s from rfl]
            rw [show Y + 4 = (Y + 3) + 1 from rfl,
              chainRun_release_unique (Y + 3) depth m s hrcm]
            rw [show Y + 3 = (Y + 2) + 1 from rfl, chainRun_deinit]
            rw [show (setRC s m 0).link m = none from hlm]
            rw [show Y + 2 = (Y + 1) + 1 from rfl, chainRun_loop_none]
            rw [show Y + 1 = Y + 1 from rfl, chainRun_release_none]
          refine ⟨setLink (pushDestroyed (setRC s m 0) m (depth + 1)) m none,
            ?_, ?_, ?_, ?_, ?_⟩
          · rw [hrel]
            show chainRun (Y + 4) depth (.loopCmd none) _ = _
            rw [show Y + 4 = (Y + 3) + 1 from rfl, chainRun_loop_none,
              chainRun_release_none]
          · simp
          · simp
          · intro n hn
            have hnm : n ≠ m := by simpa using hn
            simp [hnm]
          · intro n hn
            have hnm : n ≠ m := by simpa using hn
            simp [hnm]
      | cons b r =>
          have hlb : s.link m = some b := hlinkm
          rw [hlb]
          have hrcb : s.rc b = 1 :=
            hrc b (List.mem_cons_of_mem _ (List.mem_cons_self _ _))
          have hmb : m ≠ b := by
            intro he; rw [he] at hmrest
            exact hmrest (List.mem_cons_self _ _)
          have hbm : b ≠ m := Ne.symm hmb
          obtain ⟨Y, rfl⟩ : ∃ Y, X = Y + 4 := ⟨X - 4, by omega⟩
          have h1m : (retainVal s (some b)).rc m = 1 := by
            simp [retainVal, hmb, hrcm]
          have h3b : (setLink (pushDestroyed
              (setRC (retainVal s (some b)) m 0) m (depth + 1)) m none).rc b
                = 2 := by
            simp [retainVal, hbm, hrcb]
          have hrel : chainRun (Y + 4) depth (.releaseCmd (some m))
              (retainVal s (some b)) = some
              (setRC (setLink (pushDestroyed
                (setRC (retainVal s (some b)) m 0) m (depth + 1)) m none)
                b 1) := by
            rw [show Y + 4 = (Y + 3) + 1 from rfl,
              chainRun_release_unique (Y + 3) depth m _ h1m]
            rw [show Y + 3 = (Y + 2) + 1 from rfl, chainRun_deinit]
            rw [show (setRC (retainVal s (some b)) m 0).link m = some b from by
              simp [retainVal, hlb]]
            rw [show Y + 2 = (Y + 1) + 1 from rfl,
              chainRun_loop_shared (Y + 1) (depth + 1) b _ (by simp [h3b])]
            rw [show Y + 1 = Y + 1 from rfl,
              chainRun_release_shared Y (depth + 1) b _ (le_of_eq h3b.symm)]
            rw [h3b]
          have hrc' : ∀ n ∈ b :: r, (setRC (setLink (pushDestroyed
              (setRC (retainVal s (some b)) m 0) m (depth + 1)) m none)
                b 1).rc n = 1 := by
            intro n hn
            rcases List.mem_cons.mp hn with rfl | hnr
            · simp
            · have hnb : n ≠ b := by
                intro he; rw [he] at hnr
                exact (List.nodup_cons.mp hndrest).1 hnr
              have hnm : n ≠ m := by
                intro he; rw [he] at hn; exact hmrest hn
              simp [retainVal, hnb, hnm]
              exact hrc n (List.mem_cons_of_mem _ hn)
          have hlinks' : chainLinks (b :: r) (setRC (setLink (pushDestroyed
              (setRC (retainVal s (some b)) m 0) m (depth + 1)) m none)
                b 1) := by
            refine chainLinks_congr (b :: r) s _ ?_ hlinksrest
            intro n hn
            have hnm : n ≠ m := by
              intro he; rw [he] at hn; exact hmrest hn
            simp [retainVal, hnm]
          obtain ⟨s5, hrun5, hdes5, hmax5, hrcf5, hlinkf5⟩ :=
            ih (Y + 4) depth _ hndrest hrc' hlinks' hX
          refine ⟨s5, ?_, ?_, ?_, ?_, ?_⟩
          · rw [hrel]
            exact hrun5
          · rw [hdes5]
            simp [retainVal]
          · refine le_trans hmax5 ?_
            simp only [setRC_maxDepth, setLink_maxDepth, pushDestroyed_maxDepth,
              retainVal]
            rw [max_assoc, max_self]
          · intro n hn
            have hnm : n ≠ m := by
              intro he; rw [he] at hn
              exact hn (List.mem_cons_self _ _)
            have hnrest : n ∉ b :: r := fun h' =>
              hn (List.mem_cons_of_mem _ h')
            have hnb : n ≠ b := by
              intro he; rw [he] at hnrest
              exact hnrest (List.mem_cons_self _ _)
            rw [hrcf5 n hnrest]
            simp [retainVal, hnb, hnm]
          · intro n hn
            have hnm : n ≠ m := by
              intro he; rw [he] at hn
              exact hn (List.mem_cons_self _ _)
            have hnrest : n ∉ b :: r := fun h' =>
              hn (List.mem_cons_of_mem _ h')
            rw [hlinkf5 n hnrest]
            simp [retainVal, hnm]

/-! ## Helper lemmas: the destroying epilog and remote branch -/

lemma emitClassMemberDestruction_no_control (cd : ClassDeclM) :
    Instr.applySuperDestroyer ∉ emitClassMemberDestruction cd
    ∧ Instr.resignID ∉ emitClassMemberDestruction cd
    ∧ Instr.userBody ∉ emitClassMemberDestruction cd
    ∧ Instr.preconditionCheckExecutor ∉ emitClassMemberDestruction cd
    ∧ Instr.hopToExecutor ∉ emitClassMemberDestruction cd
    ∧ Instr.retSelfHandle ∉ emitClassMemberDestruction cd := by
  refine ⟨?_, ?_, ?_, ?_, ?_, ?_⟩ <;>
  · intro h
    rcases mem_emitClassMemberDestruction_shape _ _ h
      with ⟨vd, h'⟩ | ⟨vd, h'⟩ | h' <;> simp at h'

lemma mem_destroyingEpilog_shape (cd : ClassDeclM) (i : Instr)
    (h : i ∈ destroyingEpilog cd) :
    i = .upcastToSuper ∨ i = .superDestroyerRef ∨ i = .applySuperDestroyer
    ∨ i = .resignID ∨ (∃ vd, i = .destroyField vd)
    ∨ (∃ vd, i = .recursiveChain vd) ∨ i = .destroyDefaultActor
    ∨ i = .retSelfHandle := by
  unfold destroyingEpilog at h
  rcases List.mem_append.mp h with h1 | h1
  · rcases List.mem_append.mp h1 with h2 | h2
    · rcases List.mem_append.mp h2 with h3 | h3
      · by_cases hc : (cd.hasSuperclass && !cd.isNativeNSObjectSubclass) = true
        · rw [if_pos hc] at h3
          simp only [List.mem_cons, List.not_mem_nil, or_false] at h3
          tauto
        · rw [if_neg hc] at h3
          exact absurd h3 (List.not_mem_nil i)
      · by_cases hd : cd.isDistributedActor = true
        · rw [if_pos hd] at h3
          rcases List.mem_singleton.mp h3 with rfl
          tauto
        · rw [if_neg hd] at h3
          exact absurd h3 (List.not_mem_nil i)
    · rcases mem_emitClassMemberDestruction_shape cd i h2
        with h4 | h4 | h4 <;> tauto
  · rcases List.mem_singleton.mp h1 with rfl
    tauto

lemma destroyField_mem_remoteBranchTrace (cd : ClassDeclM) (vd : VarDeclM) :
    Instr.destroyField vd ∈ remoteBranchTrace cd ↔
      vd ∈ cd.storedProperties ∧ vd.isolationIsActorInstance = false
        ∧ (vd.name = "id" ∨ vd.name = "actorSystem")
        ∧ vd.isTrivial = false := by
  unfold remoteBranchTrace
  constructor
  · intro h
    rcases List.mem_append.mp h with h1 | h1
    · rcases List.mem_append.mp h1 with h2 | h2
      · obtain ⟨vd', hm, hi, hn, ht, heq⟩ := (mem_remoteFieldsLoop _ _).mp h2
        injection heq with heq'
        subst heq'
        exact ⟨hm, hi, hn, ht⟩
      · exfalso
        by_cases hr : cd.isRootDefaultActor = true
        · rw [if_pos hr] at h2; simp at h2
        · rw [if_neg hr] at h2; simp at h2
    · exfalso; simp at h1
  · rintro ⟨hm, hi, hn, ht⟩
    exact List.mem_append.mpr (Or.inl (List.mem_append.mpr (Or.inl
      ((mem_remoteFieldsLoop _ _).mpr ⟨vd, hm, hi, hn, ht, rfl⟩))))

lemma destroyDefaultActor_mem_remoteBranchTrace (cd : ClassDeclM) :
    (Instr.destroyDefaultActor ∈ remoteBranchTrace cd)
      ↔ cd.isRootDefaultActor = true := by
  unfold remoteBranchTrace
  constructor
  · intro h
    rcases List.mem_append.mp h with h1 | h1
    · rcases List.mem_append.mp h1 with h2 | h2
      · obtain ⟨vd', -, -, -, -, heq⟩ := (mem_remoteFieldsLoop _ _).mp h2
        exact absurd heq (by simp)
      · by_cases hr : cd.isRootDefaultActor = true
        · exact hr
        · rw [if_neg hr] at h2; simp at h2
    · simp at h1
  · intro hr
    refine List.mem_append.mpr (Or.inl (List.mem_append.mpr (Or.inr ?_)))
    rw [if_pos hr]
    exact List.mem_singleton.mpr rfl

lemma runSwitchEnumAddr_find (elts : List EnumEltM) (tag : EnumEltM)
    (h : tag ∈ elts) :
    runSwitchEnumAddr (elts.map fun e => (e, enumCaseBlock e)) tag
      = enumCaseBlock tag := by
  induction elts with
  | nil => exact absurd h (List.not_mem_nil tag)
  | cons e rest ih =>
      rw [List.map_cons]
      by_cases he : e = tag
      · subst he
        unfold runSwitchEnumAddr
        rw [List.find?_cons_of_pos _ (by simp)]
      · unfold runSwitchEnumAddr at ih ⊢
        rw [List.find?_cons_of_neg _ (by simp [he])]
        refine ih ?_
        rcases List.mem_cons.mp h with h' | h'
        · exact absurd h'.symm he
        · exact h'

lemma remoteBranchTrace_shape (cd : ClassDeclM) (i : Instr)
    (h : i ∈ remoteBranchTrace cd) :
    (∃ vd, i = .destroyField vd) ∨ i = .destroyDefaultActor
      ∨ i = .deallocRef := by
  unfold remoteBranchTrace at h
  rcases List.mem_append.mp h with h1 | h1
  · rcases List.mem_append.mp h1 with h2 | h2
    · obtain ⟨vd', -, -, -, -, heq⟩ := (mem_remoteFieldsLoop _ _).mp h2
      exact Or.inl ⟨vd', heq⟩
    · by_cases hr : cd.isRootDefaultActor = true
      · rw [if_pos hr] at h2
        exact Or.inr (Or.inl (List.mem_singleton.mp h2))
      · rw [if_neg hr] at h2; simp at h2
  · exact Or.inr (Or.inr (List.mem_singleton.mp h1))

/-! ## The claims -/

/-- C1 (counterexample): the claim asserts the superclass destroying
destructor is invoked *after* the distributed `resignID` call.  On this
concrete distributed-actor class with a superclass, the destroying form
calls the superclass destructor exactly once, the `resignID` call is
emitted, and the superclass call comes strictly *before* `resignID`, so
the claim as stated is false. -/
theorem C1_counterexample :
    emitDestroyingDestructor ddSuperDist =
      [.userBody, .upcastToSuper, .superDestroyerRef, .applySuperDestroyer,
       .resignID, .retSelfHandle]
    ∧ (emitDestroyingDestructor ddSuperDist).count .applySuperDestroyer = 1
    ∧ .resignID ∈ emitDestroyingDestructor ddSuperDist
    ∧ (emitDestroyingDestructor ddSuperDist).indexOf .applySuperDestroyer
        < (emitDestroyingDestructor ddSuperDist).indexOf .resignID := by
  decide

/-- C1 (amended): in the destroying form for a reference type with a
superclass (and not a native `NSObject` subclass), when the body falls
through to the epilog, the superclass's destroying destructor is invoked
exactly once per execution, after the user-written deinit body, *before*
the distributed `resignID` call (when the type is a distributed actor),
and before member destruction. -/
theorem C1_superclass_destructor_order (dd : DestructorDeclM)
    (h1 : dd.classDecl.hasSuperclass = true)
    (h2 : dd.classDecl.isNativeNSObjectSubclass = false)
    (h3 : dd.bodyFallsThrough = true) :
    ∃ A B, emitDestroyingDestructor dd = A ++ .applySuperDestroyer :: B
      ∧ .applySuperDestroyer ∉ A ∧ .applySuperDestroyer ∉ B
      ∧ .userBody ∈ A
      ∧ .resignID ∉ A
      ∧ (dd.classDecl.isDistributedActor = true → .resignID ∈ B)
      ∧ (∀ vd, .destroyField vd ∉ A)
      ∧ (∀ vd, .recursiveChain vd ∉ A)
      ∧ .destroyDefaultActor ∉ A := by
  refine ⟨(if dd.hasExecutor then [.preconditionCheckExecutor] else [])
      ++ [.userBody, .upcastToSuper, .superDestroyerRef],
    (if dd.classDecl.isDistributedActor then [.resignID] else [])
      ++ emitClassMemberDestruction dd.classDecl ++ [.retSelfHandle],
    ?_, ?_, ?_, ?_, ?_, ?_, ?_, ?_, ?_⟩
  · cases hex : dd.hasExecutor <;>
      cases hdist : dd.classDecl.isDistributedActor <;>
        simp [emitDestroyingDestructor, destroyingEpilog, h1, h2, h3,
          hex, hdist, List.append_assoc]
  · cases hex : dd.hasExecutor <;> simp [hex]
  · intro h
    rcases List.mem_append.mp h with h' | h'
    · rcases List.mem_append.mp h' with h'' | h''
      · cases hdist : dd.classDecl.isDistributedActor <;>
          rw [hdist] at h'' <;> simp at h''
      · exact (emitClassMemberDestruction_no_control _).1 h''
    · simp at h'
  · cases hex : dd.hasExecutor <;> simp [hex]
  · cases hex : dd.hasExecutor <;> simp [hex]
  · intro h
    refine List.mem_append.mpr (Or.inl (List.mem_append.mpr (Or.inl ?_)))
    simp [h]
  · intro vd
    cases hex : dd.hasExecutor <;> simp [hex]
  · intro vd
    cases hex : dd.hasExecutor <;> simp [hex]
  · cases hex : dd.hasExecutor <;> simp [hex]

/-- C1 witness: the amended ordering holds at a concrete distributed
actor class with a superclass. -/
theorem C1_superclass_destructor_order_witness :
    ∃ A B, emitDestroyingDestructor ddSuperDist
        = A ++ Instr.applySuperDestroyer :: B
      ∧ Instr.applySuperDestroyer ∉ A ∧ Instr.applySuperDestroyer ∉ B
      ∧ Instr.userBody ∈ A
      ∧ Instr.resignID ∉ A
      ∧ (ddSuperDist.classDecl.isDistributedActor = true →
          Instr.resignID ∈ B)
      ∧ (∀ vd, Instr.destroyField vd ∉ A)
      ∧ (∀ vd, Instr.recursiveChain vd ∉ A)
      ∧ Instr.destroyDefaultActor ∉ A :=
  C1_superclass_destructor_order ddSuperDist rfl rfl rfl

/-- C2: recursive-link detection returns at most one stored field; when
exactly one stored field has type "optional Self" it is selected as the
link; when two or more (distinct) stored fields qualify, the result set is
emptied, so no recursive-chain code is emitted and every such field goes
through the ordinary per-field destroy path. -/
theorem C2_recursive_link_detection (cd : ClassDeclM) :
    (findRecursiveLinks cd).length ≤ 1
    ∧ (∀ vd, vd ∈ cd.storedProperties → vd.typeIsOptionalSelf = true →
        (∀ vd', vd' ∈ cd.storedProperties → vd'.typeIsOptionalSelf = true →
          vd' = vd) →
        findRecursiveLinks cd = [vd])
    ∧ (∀ vd1 vd2, vd1 ∈ cd.storedProperties → vd2 ∈ cd.storedProperties →
        vd1 ≠ vd2 → vd1.typeIsOptionalSelf = true →
        vd2.typeIsOptionalSelf = true →
        findRecursiveLinks cd = []
        ∧ (∀ vd, Instr.recursiveChain vd ∉ emitClassMemberDestruction cd)
        ∧ (∀ vd, vd ∈ cd.storedProperties → vd.typeIsOptionalSelf = true →
            vd.isTrivial = false →
            Instr.destroyField vd ∈ emitClassMemberDestruction cd)) := by
  have hdef : findRecursiveLinks cd
      = if (collectRecursiveLinks [] cd.storedProperties).length > 1
        then [] else collectRecursiveLinks [] cd.storedProperties := rfl
  refine ⟨?_, ?_, ?_⟩
  · rw [hdef]
    by_cases h : (collectRecursiveLinks [] cd.storedProperties).length > 1
    · rw [if_pos h]; simp
    · rw [if_neg h]; omega
  · intro vd hvd hopt huniq
    have hm : ∀ x, x ∈ collectRecursiveLinks [] cd.storedProperties
        ↔ x = vd := by
      intro x
      rw [mem_collectRecursiveLinks]
      simp only [List.not_mem_nil, false_or]
      constructor
      · rintro ⟨hx, hoptx⟩; exact huniq x hx hoptx
      · rintro rfl; exact ⟨hvd, hopt⟩
    have hnd : (collectRecursiveLinks [] cd.storedProperties).Nodup :=
      nodup_collectRecursiveLinks _ _ List.nodup_nil
    have hsing := eq_singleton_of_nodup_mem_iff hnd hm
    rw [hdef, hsing]
    simp
  · intro vd1 vd2 hm1 hm2 hne ho1 ho2
    have h1 : vd1 ∈ collectRecursiveLinks [] cd.storedProperties :=
      (mem_collectRecursiveLinks _ _ _).mpr (Or.inr ⟨hm1, ho1⟩)
    have h2 : vd2 ∈ collectRecursiveLinks [] cd.storedProperties :=
      (mem_collectRecursiveLinks _ _ _).mpr (Or.inr ⟨hm2, ho2⟩)
    have hlen : 2 ≤ (collectRecursiveLinks [] cd.storedProperties).length :=
      two_le_length_of_two_mem h1 h2 hne
    have hfl : findRecursiveLinks cd = [] := by
      rw [hdef, if_pos (by omega)]
    refine ⟨hfl, ?_, ?_⟩
    · intro vd hmem
      unfold emitClassMemberDestruction at hmem
      rw [hfl] at hmem
      rcases List.mem_append.mp hmem with hA | hA
      · rcases List.mem_append.mp hA with hB | hB
        · obtain ⟨vd', -, -, -, heq⟩ := (mem_destroyMembersLoop _ _ _).mp hB
          simp at heq
        · simp at hB
      · by_cases hr : cd.isRootDefaultActor = true
        · rw [if_pos hr] at hA; simp at hA
        · rw [if_neg hr] at hA; simp at hA
    · intro vd hmem hopt htriv
      unfold emitClassMemberDestruction
      rw [hfl]
      refine List.mem_append.mpr (Or.inl (List.mem_append.mpr (Or.inl ?_)))
      exact (mem_destroyMembersLoop _ _ _).mpr ⟨vd, hmem, by simp, htriv, rfl⟩

/-- C2 witness: on a class with two fields of type "optional Self", the
detection result is empty and no recursive-chain code is emitted. -/
theorem C2_recursive_link_detection_witness :
    findRecursiveLinks twoLinksClass = []
    ∧ (∀ vd, Instr.recursiveChain vd ∉ emitClassMemberDestruction
        twoLinksClass) := by
  obtain ⟨h1, h2, -⟩ :=
    (C2_recursive_link_detection twoLinksClass).2.2
      { id := 0, name := "left", isTrivial := false
      , isolationIsActorInstance := false, typeIsOptionalSelf := true }
      { id := 1, name := "right", isTrivial := false
      , isolationIsActorInstance := false, typeIsOptionalSelf := true }
      (by decide) (by decide) (by decide) rfl rfl
  exact ⟨h1, h2⟩

/-- C3: on the remote-proxy branch of a distributed actor's deallocating
destructor, the user-written deinit body never executes, the destroying
form is never called, only stored fields named `id` or `actorSystem` are
destroyed (plus the default-actor runtime state exactly when the class is
a root default actor), and the branch ends by deallocating the object
directly. -/
theorem C3_remote_branch_fields (cd : ClassDeclM)
    (hdist : cd.isDistributedActor = true) :
    ∃ r, emitDeallocatingClassDestructor cd false
        = .withRemoteBranch r deallocatingLocalDeinit [.retVoid]
      ∧ Instr.userBody ∉ r
      ∧ Instr.applyDestroyer ∉ r
      ∧ Instr.destroyerRef ∉ r
      ∧ (∃ r0, r = r0 ++ [Instr.deallocRef] ∧ Instr.deallocRef ∉ r0)
      ∧ (∀ vd, Instr.destroyField vd ∈ r →
          vd.name = "id" ∨ vd.name = "actorSystem")
      ∧ ((Instr.destroyDefaultActor ∈ r) ↔ cd.isRootDefaultActor = true)
      ∧ (∀ vd, vd ∈ cd.storedProperties →
          vd.isolationIsActorInstance = false →
          (vd.name = "id" ∨ vd.name = "actorSystem") → vd.isTrivial = false →
          Instr.destroyField vd ∈ r) := by
  refine ⟨remoteBranchTrace cd, ?_, ?_, ?_, ?_, ?_, ?_, ?_, ?_⟩
  · simp [emitDeallocatingClassDestructor, emitDistributedRemoteActorDeinit,
      hdist]
  · intro h
    rcases remoteBranchTrace_shape cd _ h with ⟨vd, h'⟩ | h' | h' <;>
      simp at h'
  · intro h
    rcases remoteBranchTrace_shape cd _ h with ⟨vd, h'⟩ | h' | h' <;>
      simp at h'
  · intro h
    rcases remoteBranchTrace_shape cd _ h with ⟨vd, h'⟩ | h' | h' <;>
      simp at h'
  · refine ⟨remoteFieldsLoop cd.storedProperties
      ++ (if cd.isRootDefaultActor = true then [Instr.destroyDefaultActor]
          else []), rfl, ?_⟩
    intro h
    rcases List.mem_append.mp h with h1 | h1
    · obtain ⟨vd', -, -, -, -, heq⟩ := (mem_remoteFieldsLoop _ _).mp h1
      simp at heq
    · by_cases hr : cd.isRootDefaultActor = true
      · rw [if_pos hr] at h1; simp at h1
      · rw [if_neg hr] at h1; simp at h1
  · intro vd h
    exact ((destroyField_mem_remoteBranchTrace cd vd).mp h).2.2.1
  · exact destroyDefaultActor_mem_remoteBranchTrace cd
  · intro vd hm hi hn ht
    exact (destroyField_mem_remoteBranchTrace cd vd).mpr ⟨hm, hi, hn, ht⟩

/-- C3 witness: on a concrete distributed actor class with ordinary
isolated fields, the remote branch exists and executes no user body. -/
theorem C3_remote_branch_fields_witness :
    ∃ r, emitDeallocatingClassDestructor distActorClass false
        = .withRemoteBranch r deallocatingLocalDeinit [.retVoid]
      ∧ Instr.userBody ∉ r
      ∧ (∀ vd, Instr.destroyField vd ∈ r →
          vd.name = "id" ∨ vd.name = "actorSystem") := by
  obtain ⟨r, h1, h2, -, -, -, h6, -⟩ :=
    C3_remote_branch_fields distActorClass rfl
  exact ⟨r, h1, h2, h6⟩

/-- C4: the emitted recursive-chain destruction CFG has the claimed
shape — the entry block take-loads the link field into the working slot
and overwrites the field with the `none` optional; the loop switches on
the slot and, on a present link, tests uniqueness; the not-unique edge
exits immediately to the clean block; the unique block loads the node's
own link with a `copy` (never a `take`) and releases the slot's previous
reference with an `assign` store before looping; both exits converge on
the clean block, which destroys the slot's final contents and deallocates
its stack storage.  Dynamically, with a non-uniquely-owned link the loop
performs exactly one release and terminates. -/
theorem C4_chain_loop_structure :
    (emitRecursiveChainDestruction .entry =
      [.optionalNoneLit, .refElementAddrLink, .allocStackIter,
       .beginAccessField .modify, .loadField .take, .storeFieldNone,
       .endAccessField, .storeIter .initQual, .br .loopBB]
    ∧ emitRecursiveChainDestruction .loopBB
        = [.switchEnumIter .someBB .noneBB]
    ∧ emitRecursiveChainDestruction .someBB
        = [.isUniqueIter, .condBranchUnique .uniqueBB .notUniqueBB]
    ∧ emitRecursiveChainDestruction .notUniqueBB = [.br .cleanBB]
    ∧ emitRecursiveChainDestruction .noneBB = [.br .cleanBB]
    ∧ CInstr.loadField .copy ∈ emitRecursiveChainDestruction .uniqueBB
    ∧ CInstr.loadField .take ∉ emitRecursiveChainDestruction .uniqueBB
    ∧ CInstr.storeIter .assignQual ∈ emitRecursiveChainDestruction .uniqueBB
    ∧ (emitRecursiveChainDestruction .uniqueBB).getLast?
        = some (.br .loopBB)
    ∧ emitRecursiveChainDestruction .cleanBB
        = [.destroyAddrIter, .deallocStackIter])
    ∧ ∀ (m d f : Nat) (s : RState), 2 ≤ s.rc m →
        chainRun (f + 2) d (.loopCmd (some m)) s
          = some (setRC s m (s.rc m - 1)) := by
  constructor
  · decide
  · intro m d f s h
    rw [show f + 2 = (f + 1) + 1 from rfl,
      chainRun_loop_shared (f + 1) d m s (by omega),
      chainRun_release_shared f d m s h]

/-- C4 witness: the not-unique exit at a concrete shared node. -/
theorem C4_chain_loop_structure_witness :
    chainRun (3 + 2) 0 (.loopCmd (some 3)) sharedNodeState
      = some (setRC sharedNodeState 3 (sharedNodeState.rc 3 - 1)) :=
  C4_chain_loop_structure.2 3 0 3 sharedNodeState (by decide)

/-- C5: for the class with exactly one stored field of type "optional
Self", the chain-destruction code is selected, and destroying a
uniquely-owned chain of N nodes destroys every node exactly once (in
chain order) while the nested destructor-frame depth never exceeds 2,
independently of N — O(1) stack depth. -/
theorem C5_chain_destruction_linear :
    (findRecursiveLinks nodeClass = [nodeLinkField]
      ∧ Instr.recursiveChain nodeLinkField
          ∈ emitClassMemberDestruction nodeClass)
    ∧ ∀ (a : Nat) (rest : List Nat) (fuel : Nat),
        (a :: rest).Nodup → rest.length + 7 ≤ fuel →
        ∃ s', chainRun fuel 0 (.releaseCmd (some a))
            (mkChainState (a :: rest)) = some s'
          ∧ s'.destroyed = a :: rest
          ∧ s'.maxDepth ≤ 2 := by
  constructor
  · exact ⟨by decide, by decide⟩
  · intro a rest fuel hnd hf
    have hanotin := (List.nodup_cons.mp hnd).1
    have hndrest := (List.nodup_cons.mp hnd).2
    have h0a : (mkChainState (a :: rest)).rc a = 1 := by
      simp [mkChainState]
    obtain ⟨X, rfl⟩ : ∃ X, fuel = X + 1 := ⟨fuel - 1, by omega⟩
    rw [chainRun_release_unique X 0 a _ h0a]
    obtain ⟨Y, rfl⟩ : ∃ Y, X = Y + 1 := ⟨X - 1, by omega⟩
    rw [chainRun_deinit]
    rw [show (setRC (mkChainState (a :: rest)) a 0).link a = rest.head? from
      chainNext_head a rest]
    have hrc' : ∀ n ∈ rest, (setLink (pushDestroyed
        (setRC (mkChainState (a :: rest)) a 0) a (0 + 1)) a none).rc n
          = 1 := by
      intro n hn
      have hna : n ≠ a := by
        intro he; rw [he] at hn; exact hanotin hn
      simp [mkChainState, hna]
      exact hn
    have hlinks' : chainLinks rest (setLink (pushDestroyed
        (setRC (mkChainState (a :: rest)) a 0) a (0 + 1)) a none) := by
      refine chainLinks_congr rest (mkChainState (a :: rest)) _ ?_
        (chainLinks_head a rest _ (chainLinks_mkChainState _ hnd)).2
      intro n hn
      have hna : n ≠ a := by
        intro he; rw [he] at hn; exact hanotin hn
      simp [hna]
    obtain ⟨s', hrun, hdes, hmax, -, -⟩ :=
      chainLoop_spec rest Y (0 + 1) _ hndrest hrc' hlinks' (by omega)
    refine ⟨s', hrun, ?_, ?_⟩
    · rw [hdes]
      simp [mkChainState]
    · refine le_trans hmax ?_
      have hmd : (setLink (pushDestroyed
          (setRC (mkChainState (a :: rest)) a 0) a (0 + 1)) a none).maxDepth
            = 1 := rfl
      rw [hmd]
      decide

/-- C5 witness: a concrete three-node uniquely-owned chain is destroyed
exactly once per node at nested depth at most 2. -/
theorem C5_chain_destruction_linear_witness :
    ∃ s', chainRun 12 0 (.releaseCmd (some 1)) (mkChainState (1 :: [2, 3]))
        = some s'
      ∧ s'.destroyed = 1 :: [2, 3] ∧ s'.maxDepth ≤ 2 :=
  C5_chain_destruction_linear.2 1 [2, 3] 12 (by decide) (by decide)

/-- C6: the local path of the deallocating class destructor performs, in
order: a non-virtual reference to the destroying destructor of the exact
type, a borrow of self, the call on the borrowed self yielding a handle,
the end of the borrow, the explicit end-of-lifetime marker on the original
owned self, the cast of the handle back to the class type, and the
memory-free operation — whether or not a remote-proxy branch wraps it. -/
theorem C6_deallocating_local_path (cd : ClassDeclM) (isIsolated : Bool) :
    emitDeallocatingClassDestructor cd isIsolated
        = .noBranch ([.destroyerRef, .beginBorrowSelf, .applyDestroyer,
            .endBorrowSelf, .endLifetimeSelf, .refCastToClass, .deallocRef]
          ++ [.retVoid])
    ∨ emitDeallocatingClassDestructor cd isIsolated
        = .withRemoteBranch (remoteBranchTrace cd)
            [.destroyerRef, .beginBorrowSelf, .applyDestroyer,
             .endBorrowSelf, .endLifetimeSelf, .refCastToClass, .deallocRef]
            [.retVoid] := by
  unfold emitDeallocatingClassDestructor emitDistributedRemoteActorDeinit
  by_cases h : (isIsolated || !cd.isDistributedActor) = true
  · rw [if_pos h]; left; rfl
  · rw [if_neg h]; right; rfl

/-- C7: destroying a consumed tagged-union value held in memory first
emits the deinit-invalidating `drop_deinit`, then a tag switch with one
block per case; the block for the runtime tag is the one executed, it
destroys that case's payload exactly when the case carries associated
values, it destroys no other case's payload, and it ends by branching to
the common continuation block. -/
theorem C7_enum_member_destruction (elts : List EnumEltM) (tag : EnumEltM)
    (htag : tag ∈ elts) :
    (emitMoveOnlyMemberDestruction (.enumDecl elts) false false).1 = true
    ∧ (emitMoveOnlyMemberDestruction (.enumDecl elts) false false).2
        = .enumSwitch (elts.map fun e => (e, enumCaseBlock e))
    ∧ runSwitchEnumAddr (elts.map fun e => (e, enumCaseBlock e)) tag
        = enumCaseBlock tag
    ∧ ((MInstr.destroyPayloadAddr tag ∈ enumCaseBlock tag)
        ↔ tag.hasAssociatedValues = true)
    ∧ (∀ e, e ≠ tag → MInstr.destroyPayloadAddr e ∉ enumCaseBlock tag)
    ∧ (enumCaseBlock tag).getLast? = some .brContinuation := by
  refine ⟨rfl, rfl, runSwitchEnumAddr_find elts tag htag, ?_, ?_, ?_⟩
  · cases hv : tag.hasAssociatedValues <;> simp [enumCaseBlock, hv]
  · intro e hne h
    cases hv : tag.hasAssociatedValues <;>
      simp [enumCaseBlock, hv, hne] at h
  · cases hv : tag.hasAssociatedValues <;>
      simp [enumCaseBlock, hv, List.getLast?_concat]

/-- C7 witness: the payload-carrying case of a concrete two-case union
runs exactly its own block. -/
theorem C7_enum_member_destruction_witness :
    (emitMoveOnlyMemberDestruction (.enumDecl [eltPayload, eltEmpty])
        false false).1 = true
    ∧ runSwitchEnumAddr
        ([eltPayload, eltEmpty].map fun e => (e, enumCaseBlock e)) eltPayload
        = enumCaseBlock eltPayload := by
  obtain ⟨h1, -, h3, -⟩ :=
    C7_enum_member_destruction [eltPayload, eltEmpty] eltPayload (by decide)
  exact ⟨h1, h3⟩

/-- C8: when an executor was computed for the destructor's isolation, the
destroying form emits the executor precondition check before the user
body; when none was computed, no check is emitted; and no executor hop is
ever emitted. -/
theorem C8_executor_precondition (dd : DestructorDeclM) :
    (dd.hasExecutor = true →
      ∃ rest, emitDestroyingDestructor dd
        = .preconditionCheckExecutor :: .userBody :: rest)
    ∧ (dd.hasExecutor = false →
      Instr.preconditionCheckExecutor ∉ emitDestroyingDestructor dd)
    ∧ Instr.hopToExecutor ∉ emitDestroyingDestructor dd := by
  refine ⟨?_, ?_, ?_⟩
  · intro h
    refine ⟨(if dd.bodyFallsThrough then destroyingEpilog dd.classDecl
      else []), ?_⟩
    simp [emitDestroyingDestructor, h]
  · intro h hmem
    unfold emitDestroyingDestructor at hmem
    rw [h] at hmem
    rcases List.mem_append.mp hmem with h1 | h1
    · rcases List.mem_append.mp h1 with h2 | h2
      · simp at h2
      · simp at h2
    · by_cases hb : dd.bodyFallsThrough = true
      · rw [if_pos hb] at h1
        rcases mem_destroyingEpilog_shape _ _ h1
          with h' | h' | h' | h' | ⟨vd, h'⟩ | ⟨vd, h'⟩ | h' | h' <;>
          simp at h'
      · rw [if_neg hb] at h1; simp at h1
  · intro hmem
    unfold emitDestroyingDestructor at hmem
    rcases List.mem_append.mp hmem with h1 | h1
    · rcases List.mem_append.mp h1 with h2 | h2
      · by_cases hex : dd.hasExecutor = true
        · rw [if_pos hex] at h2; simp at h2
        · rw [if_neg hex] at h2; simp at h2
      · simp at h2
    · by_cases hb : dd.bodyFallsThrough = true
      · rw [if_pos hb] at h1
        rcases mem_destroyingEpilog_shape _ _ h1
          with h' | h' | h' | h' | ⟨vd, h'⟩ | ⟨vd, h'⟩ | h' | h' <;>
          simp at h'
      · rw [if_neg hb] at h1; simp at h1

/-- C8 witness: a destructor with an executor gets the precondition check
right before its body. -/
theorem C8_executor_precondition_witness :
    ∃ rest, emitDestroyingDestructor ddWithExecutor
      = Instr.preconditionCheckExecutor :: Instr.userBody :: rest :=
  (C8_executor_precondition ddWithExecutor).1 rfl

/-- C9: the remote-proxy conditional branch is emitted exactly when the
class is a distributed actor and the destructor is not invoked as the
isolated deallocator; otherwise the local deinit is emitted
unconditionally with no branch.  In particular the deallocating destructor
invoked as the isolated deallocator (`isIsolated = true`) never branches,
while the isolating wrapper branches exactly for distributed actors. -/
theorem C9_remote_branch_once (cd : ClassDeclM) (iso : Bool)
    (L : List Instr) :
    ((emitDistributedRemoteActorDeinit cd iso L).hasRemoteBranch = true
      ↔ (cd.isDistributedActor = true ∧ iso = false))
    ∧ (cd.isDistributedActor = false ∨ iso = true →
        emitDistributedRemoteActorDeinit cd iso L
          = .noBranch (L ++ [.retVoid]))
    ∧ (emitDeallocatingClassDestructor cd true).hasRemoteBranch = false
    ∧ (emitIsolatingDestructor cd).hasRemoteBranch
        = cd.isDistributedActor := by
  cases hd : cd.isDistributedActor <;> cases iso <;>
    simp [emitDistributedRemoteActorDeinit, emitDeallocatingClassDestructor,
      emitIsolatingDestructor, DeallocTrace.hasRemoteBranch, hd]

/-- C9 witness: a distributed actor's non-isolated deallocation branches
on the remote predicate. -/
theorem C9_remote_branch_once_witness :
    (emitDistributedRemoteActorDeinit distActorClass false []).hasRemoteBranch
        = true
      ↔ (distActorClass.isDistributedActor = true ∧ false = false) :=
  (C9_remote_branch_once distActorClass false []).1

/-- C10: on the remote-proxy branch, a stored property whose isolation is
actor-instance is skipped before the well-known-name comparison — even
one named `id` or `actorSystem` — and every field the branch destroys is
non-instance-isolated and named `id` or `actorSystem`. -/
theorem C10_isolated_fields_skipped (cd : ClassDeclM) (vd : VarDeclM) :
    (vd.isolationIsActorInstance = true →
      Instr.destroyField vd ∉ remoteBranchTrace cd)
    ∧ (Instr.destroyField vd ∈ remoteBranchTrace cd →
        vd.isolationIsActorInstance = false
        ∧ (vd.name = "id" ∨ vd.name = "actorSystem")) := by
  constructor
  · intro hiso hmem
    obtain ⟨-, h2, -, -⟩ :=
      (destroyField_mem_remoteBranchTrace cd vd).mp hmem
    rw [hiso] at h2
    exact absurd h2 (by simp)
  · intro hmem
    obtain ⟨-, h2, h3, -⟩ :=
      (destroyField_mem_remoteBranchTrace cd vd).mp hmem
    exact ⟨h2, h3⟩

/-- C10 witness: the actor-instance-isolated field named `id` of a
concrete distributed actor class is not destroyed on the remote branch. -/
theorem C10_isolated_fields_skipped_witness :
    Instr.destroyField isolatedIdField ∉ remoteBranchTrace distActorClass :=
  (C10_isolated_fields_skipped distActorClass isolatedIdField).1 rfl
